import Mathlib

/-!
Verification of the Wesolowski VDF core (`src/lib.rs` of SoraSuegami/vdf_for_ethereum).

Big integers of the `curv` adapter are embedded as `Nat` (every value handled by
this API is produced by big-endian byte decoding, modular reduction, or modular
exponentiation, hence non-negative).  Byte strings are `List Nat` with each
entry a byte value.  The external collaborators that are not part of the
repository's sources — the Keccak-256 digest (the `sha3` crate), the
Miller–Rabin primality oracle, and the trusted RSA modulus returned by
`utilities::get_trusted_rsa_modules` — are abstracted as parameters
`keccak : List Nat -> List Nat`, `ip : Nat -> Bool` and `Nmod : Nat`.
-/

/-- Big-endian byte decoding, as `BigInt::from_bytes`: fold the byte string
left to right, each step multiplying the accumulator by 256. -/
def bytesToNat (bs : List Nat) : Nat :=
  bs.foldl (fun acc b => acc * 256 + b) 0

/-- Helper for big-endian encoding: structural fuel bounds the recursion
`n -> n / 256`; `fuel = n` always suffices. -/
def natToBytesAux : Nat → Nat → List Nat
  | 0, _ => []
  | fuel + 1, n => if n = 0 then [] else natToBytesAux fuel (n / 256) ++ [n % 256]

/-- Minimal big-endian byte encoding, as `BigInt::to_bytes`: no leading zero
byte, and the number zero encodes to the empty string. -/
def natToBytes (n : Nat) : List Nat :=
  natToBytesAux n n

/-- Fixed-width big-endian encoding of `n` into exactly `k` bytes, as
`u64::to_be_bytes` / `u32::to_be_bytes` (the value is taken modulo `256 ^ k`). -/
def beBytes : Nat → Nat → List Nat
  | 0, _ => []
  | k + 1, n => beBytes k (n / 256) ++ [n % 256]

/-- Left zero-padding of a byte string to width `k`, as the
`buf[k - len..k].copy_from_slice(bytes)` idiom of `SerializedVDFProof::compute`. -/
def padLeft (k : Nat) (bs : List Nat) : List Nat :=
  List.replicate (k - bs.length) 0 ++ bs

theorem bytesToNat_foldl (l : List Nat) (a : Nat) :
    l.foldl (fun acc b => acc * 256 + b) a = a * 256 ^ l.length + bytesToNat l := by
  induction l generalizing a with
  | nil => simp [bytesToNat]
  | cons b l ih =>
    show List.foldl _ (a * 256 + b) l = _
    rw [ih (a * 256 + b)]
    have hb : bytesToNat (b :: l) = b * 256 ^ l.length + bytesToNat l := by
      show List.foldl _ (0 * 256 + b) l = _
      rw [ih]
      ring
    rw [hb]
    simp [List.length_cons, pow_succ]
    ring

theorem bytesToNat_append (x y : List Nat) :
    bytesToNat (x ++ y) = bytesToNat x * 256 ^ y.length + bytesToNat y := by
  unfold bytesToNat
  rw [List.foldl_append]
  exact bytesToNat_foldl y _

theorem bytesToNat_replicate_zero (k : Nat) :
    bytesToNat (List.replicate k 0) = 0 := by
  induction k with
  | zero => rfl
  | succ k ih =>
    rw [List.replicate_succ]
    show List.foldl _ (0 * 256 + 0) _ = 0
    simpa [bytesToNat] using ih

theorem bytesToNat_padLeft (k : Nat) (bs : List Nat) :
    bytesToNat (padLeft k bs) = bytesToNat bs := by
  unfold padLeft
  rw [bytesToNat_append, bytesToNat_replicate_zero]
  simp

theorem natToBytesAux_spec (fuel : Nat) :
    ∀ n, n ≤ fuel → bytesToNat (natToBytesAux fuel n) = n := by
  induction fuel with
  | zero =>
    intro n hn
    interval_cases n
    rfl
  | succ fuel ih =>
    intro n hn
    by_cases h0 : n = 0
    · simp [natToBytesAux, h0, bytesToNat]
    · rw [natToBytesAux, if_neg h0, bytesToNat_append]
      have hdiv : n / 256 ≤ fuel := by omega
      rw [ih (n / 256) hdiv]
      have : bytesToNat [n % 256] = n % 256 := by simp [bytesToNat]
      rw [this]
      simp only [List.length_singleton, pow_one]
      omega

theorem bytesToNat_natToBytes (n : Nat) : bytesToNat (natToBytes n) = n :=
  natToBytesAux_spec n n (Nat.le_refl n)

theorem bytesToNat_padLeft_natToBytes (k n : Nat) :
    bytesToNat (padLeft k (natToBytes n)) = n := by
  rw [bytesToNat_padLeft, bytesToNat_natToBytes]

theorem beBytes_length (k n : Nat) : (beBytes k n).length = k := by
  induction k generalizing n with
  | zero => rfl
  | succ k ih => simp [beBytes, ih]

theorem bytesToNat_beBytes (k : Nat) :
    ∀ n, n < 256 ^ k → bytesToNat (beBytes k n) = n := by
  induction k with
  | zero =>
    intro n hn
    simp [pow_zero] at hn
    simp [hn, beBytes, bytesToNat]
  | succ k ih =>
    intro n hn
    rw [beBytes, bytesToNat_append]
    have hdiv : n / 256 < 256 ^ k := by
      rw [Nat.div_lt_iff_lt_mul (by norm_num : (0:Nat) < 256)]
      rw [pow_succ] at hn
      exact hn
    rw [ih (n / 256) hdiv]
    have : bytesToNat [n % 256] = n % 256 := by simp [bytesToNat]
    rw [this]
    simp only [List.length_singleton, pow_one]
    omega

/-- Modelled from the spec: the error taxonomy of `utilities::ErrorReason`
(the `utilities` module is not among the sources).  Spec section 7 lists the
four kinds; panics of the Rust code (failed `assert!`, hash-to-prime nonce
overflow) are surfaced through the kinds the spec assigns to them
(`InvalidInput`, `InternalError`). -/
inductive ErrorReason where
  | MisMatchedVDF
  | VDFVerifyError
  | InvalidInput
  | InternalError
deriving DecidableEq

/-- `SetupForVDF`: the pair of the sequential-work parameter `t` and the
RSA modulus `N`. -/
structure SetupForVDF where
  t : Nat
  N : Nat
deriving DecidableEq

/-- `UnsolvedVDF`: the challenge, a seed `x` together with the setup. -/
structure UnsolvedVDF where
  x : Nat
  setup : SetupForVDF
deriving DecidableEq

/-- `SolvedVDF`: the evaluated VDF with its embedded instance. -/
structure SolvedVDF where
  vdf_instance : UnsolvedVDF
  y : Nat
  pi : Nat
  q : Nat
  nonce : Nat
deriving DecidableEq

/-- `SerializedVDFParameter`: raw seed bytes plus the 64-bit `t`. -/
structure SerializedVDFParameter where
  x : List Nat
  t : Nat
deriving DecidableEq

/-- `SerializedVDFProof`: the four wire fields; in Rust `y`, `pi`, `q` are
`[u8; 256]` arrays and `nonce` is `u32` (those width facts appear as
hypotheses where a theorem needs them). -/
structure SerializedVDFProof where
  y : List Nat
  pi : List Nat
  q : List Nat
  nonce : Nat
deriving DecidableEq

/-- `BigInt::mod_pow(base, exp, modulus)` of the curv adapter. -/
def mod_pow (base exp modulus : Nat) : Nat :=
  base ^ exp % modulus

/-- `BigInt::mod_mul(a, b, modulus)` of the curv adapter. -/
def mod_mul (a b modulus : Nat) : Nat :=
  a * b % modulus

/-- Modelled from the spec: `utilities::h_g` (not among the sources),
spec section 4.C: keccak over the minimal big-endian encodings of `N` and `x`,
the digest interpreted as a big-endian integer and reduced mod `N`. -/
def h_g (keccak : List Nat → List Nat) (N x : Nat) : Nat :=
  bytesToNat (keccak (natToBytes N ++ natToBytes x)) % N

/-- Modelled from the spec: the counter loop of `utilities::hash_to_prime`
(not among the sources), spec section 4.D.  `fuel` counts the remaining
nonce values; exhaustion models the mandated fatal nonce overflow. -/
def hashToPrimeAux (keccak : List Nat → List Nat) (ip : Nat → Bool)
    (g y : Nat) : Nat → Nat → Option (Nat × Nat)
  | 0, _ => none
  | fuel + 1, nonce =>
    let candidate := bytesToNat (keccak (natToBytes g ++ natToBytes y ++ beBytes 4 nonce))
    if ip candidate then some (candidate, nonce)
    else hashToPrimeAux keccak ip g y fuel (nonce + 1)

/-- Modelled from the spec: `utilities::hash_to_prime` (not among the
sources), spec section 4.D: starting from nonce 0, hash `(g, y, nonce)` with
Keccak-256 and return the first digest accepted by the primality oracle `ip`,
together with the nonce; the nonce is a `u32`, so at most `2 ^ 32` values are
tried and overflow is fatal (`none`). -/
def hash_to_prime (keccak : List Nat → List Nat) (ip : Nat → Bool)
    (g y : Nat) : Option (Nat × Nat) :=
  hashToPrimeAux keccak ip g y (2 ^ 32) 0

/-- `SetupForVDF::public_setup`.  Modelled from the spec: the modulus comes
from `utilities::get_trusted_rsa_modules` (not among the sources), a fixed
trusted 2048-bit constant, abstracted here as the parameter `Nmod`. -/
def SetupForVDF.public_setup (Nmod : Nat) (t : Nat) : SetupForVDF :=
  { t := t, N := Nmod }

/-- The sequential-squaring loop of `UnsolvedVDF::eval`:
`y := g`, then `t` times `y := mod_mul(y, y, N)`. -/
def sqLoop (N g : Nat) : Nat → Nat
  | 0 => g
  | t + 1 =>
    let y := sqLoop N g t
    mod_mul y y N

/-- One iteration of the long-division proof loop of `UnsolvedVDF::eval`
on the state `(r, r2, pi)`. -/
def proofStep (N g l : Nat) : Nat × Nat × Nat → Nat × Nat × Nat
  | (r, _, pi) =>
    let r2 := r * 2
    let b := r2 / l
    let r' := r2 % l
    let g_b := mod_pow g b N
    let pi1 := mod_mul pi pi N
    let pi2 := mod_mul pi1 g_b N
    (r', r2, pi2)

/-- The long-division proof loop of `UnsolvedVDF::eval` run for `t`
iterations from the initial state `r = 1`, `r2 = 0`, `pi = 1`. -/
def proofLoop (N g l : Nat) : Nat → Nat × Nat × Nat
  | 0 => (1, 0, 1)
  | t + 1 => proofStep N g l (proofLoop N g l t)

/-- `UnsolvedVDF::eval` (algorithms 3 and 4 of Wesolowski): squaring loop,
hash-to-prime, proof loop, and the auxiliary quotient
`q = (pi ^ l mod N) * (g ^ r2 mod N) / N`.  `none` models the fatal
hash-to-prime nonce overflow. -/
def UnsolvedVDF.eval (keccak : List Nat → List Nat) (ip : Nat → Bool)
    (unsolved_vdf : UnsolvedVDF) : Option SolvedVDF :=
  let N := unsolved_vdf.setup.N
  let x := unsolved_vdf.x
  let t := unsolved_vdf.setup.t
  let g := h_g keccak N x
  let y := sqLoop N g t
  match hash_to_prime keccak ip g y with
  | none => none
  | some (l, nonce) =>
    let st := proofLoop N g l t
    let r2 := st.2.1
    let pi := st.2.2
    let u1 := mod_pow pi l N
    let u2 := mod_pow g r2 N
    let q := u1 * u2 / N
    some { vdf_instance := unsolved_vdf, y := y, pi := pi, q := q, nonce := nonce }

/-- `UnsolvedVDF::from_parameter`. -/
def UnsolvedVDF.from_parameter (Nmod : Nat) (parameter : SerializedVDFParameter) :
    UnsolvedVDF :=
  { x := bytesToNat parameter.x, setup := SetupForVDF.public_setup Nmod parameter.t }

/-- `SolvedVDF::from_parameter_and_proof`. -/
def SolvedVDF.from_parameter_and_proof (Nmod : Nat)
    (parameter : SerializedVDFParameter) (proof : SerializedVDFProof) : SolvedVDF :=
  { vdf_instance := UnsolvedVDF.from_parameter Nmod parameter
    y := bytesToNat proof.y
    pi := bytesToNat proof.pi
    q := bytesToNat proof.q
    nonce := proof.nonce }

/-- `SolvedVDF::verify` (algorithm 2 of Wesolowski), mirroring the source
order: instance equality, recompute `g`, range check, hash-to-prime,
`r = mod_pow(2, t, l)`, and the relation `mod_mul(pi ^ l, g ^ r, N) == y`.
The `InternalError` branch models the fatal hash-to-prime nonce overflow. -/
def SolvedVDF.verify (keccak : List Nat → List Nat) (ip : Nat → Bool)
    (s : SolvedVDF) (unsolved_vdf : UnsolvedVDF) : Except ErrorReason Unit :=
  if s.vdf_instance ≠ unsolved_vdf then .error .MisMatchedVDF
  else
    let N := s.vdf_instance.setup.N
    let g := h_g keccak s.vdf_instance.setup.N s.vdf_instance.x
    if N ≤ s.y ∨ N ≤ s.pi then .error .VDFVerifyError
    else
      match hash_to_prime keccak ip g s.y with
      | none => .error .InternalError
      | some (l, _) =>
        let r := mod_pow 2 s.vdf_instance.setup.t l
        let pi_l := mod_pow s.pi l N
        let g_r := mod_pow g r N
        let pi_l_g_r := mod_mul pi_l g_r N
        if pi_l_g_r = s.y then .ok () else .error .VDFVerifyError

/-- `SerializedVDFProof::verify_with_parameter`: rebuild the `SolvedVDF`
from the parameter and the proof, then verify it against its own embedded
instance. -/
def SerializedVDFProof.verify_with_parameter (keccak : List Nat → List Nat)
    (ip : Nat → Bool) (Nmod : Nat) (proof : SerializedVDFProof)
    (parameter : SerializedVDFParameter) : Except ErrorReason Unit :=
  let solved_vdf := SolvedVDF.from_parameter_and_proof Nmod parameter proof
  SolvedVDF.verify keccak ip solved_vdf solved_vdf.vdf_instance

/-- `SerializedVDFProof::to_bytes`: `y ‖ pi ‖ q ‖ nonce` with the nonce in
4-byte big-endian. -/
def SerializedVDFProof.to_bytes (p : SerializedVDFProof) : List Nat :=
  p.y ++ p.pi ++ p.q ++ beBytes 4 p.nonce

/-- `SerializedVDFProof::from_bytes`: the `assert!` on the 772-byte size is
surfaced as the spec's `InvalidInput` error; otherwise split the slice at
offsets 256, 512, 768 and decode the nonce big-endian. -/
def SerializedVDFProof.from_bytes (bytes : List Nat) :
    Except ErrorReason SerializedVDFProof :=
  if bytes.length = 772 then
    .ok { y := bytes.take 256
          pi := (bytes.drop 256).take 256
          q := (bytes.drop 512).take 256
          nonce := bytesToNat ((bytes.drop 768).take 4) }
  else .error .InvalidInput

/-- `SerializedVDFProof::compute`: the `assert!` on the 32-byte seed length
is surfaced as the spec's `InvalidInput` error; then build the instance
(`t` through its 8-byte big-endian encoding, as the source does), evaluate,
self-verify (propagating any verification error), and serialize with each
group element left-padded to 256 bytes. -/
def SerializedVDFProof.compute (keccak : List Nat → List Nat) (ip : Nat → Bool)
    (Nmod : Nat) (t : Nat) (x : List Nat) :
    Except ErrorReason SerializedVDFProof :=
  if x.length = 32 then
    let tB := bytesToNat (beBytes 8 t)
    let xB := bytesToNat x
    let setup := SetupForVDF.public_setup Nmod tB
    let unsolved_vdf : UnsolvedVDF := { x := xB, setup := setup }
    match UnsolvedVDF.eval keccak ip unsolved_vdf with
    | none => .error .InternalError
    | some solved_vdf =>
      match SolvedVDF.verify keccak ip solved_vdf unsolved_vdf with
      | .error e => .error e
      | .ok _ =>
        .ok { y := padLeft 256 (natToBytes solved_vdf.y)
              pi := padLeft 256 (natToBytes solved_vdf.pi)
              q := padLeft 256 (natToBytes solved_vdf.q)
              nonce := solved_vdf.nonce }
  else .error .InvalidInput

instance {ε α : Type} [DecidableEq ε] [DecidableEq α] : DecidableEq (Except ε α) := fun x y =>
  match x, y with
  | .error a, .error b => decidable_of_iff (a = b) (by simp)
  | .error _, .ok _ => isFalse (fun h => Except.noConfusion h)
  | .ok _, .error _ => isFalse (fun h => Except.noConfusion h)
  | .ok a, .ok b => decidable_of_iff (a = b) (by simp)

theorem mod_mul_mod_left (a c n : Nat) : a % n * c % n = a * c % n :=
  (Nat.mod_modEq a n).mul_right c

theorem mod_mul_three (A B C n : Nat) :
    A % n * (B % n) % n * (C % n) % n = A * B * C % n := by
  rw [mod_mul_mod_left (A % n * (B % n)) (C % n) n]
  exact ((Nat.mod_modEq A n).mul (Nat.mod_modEq B n)).mul (Nat.mod_modEq C n)

theorem div_double (a l : Nat) (hl : 0 < l) :
    a / l + a / l + a % l * 2 / l = a * 2 / l := by
  have h1 : a * 2 = l * (a / l * 2) + a % l * 2 := by
    conv_lhs => rw [← Nat.div_add_mod a l]
    ring
  rw [h1, Nat.mul_add_div hl, Nat.mul_two]
  ring

theorem sqLoop_closed (N g : Nat) (hg : g < N) :
    ∀ t, sqLoop N g t = g ^ 2 ^ t % N := by
  intro t
  induction t with
  | zero =>
    show g = g ^ 2 ^ 0 % N
    rw [pow_zero, pow_one, Nat.mod_eq_of_lt hg]
  | succ t ih =>
    show mod_mul (sqLoop N g t) (sqLoop N g t) N = _
    rw [ih]
    show g ^ 2 ^ t % N * (g ^ 2 ^ t % N) % N = _
    rw [← Nat.mul_mod, ← pow_add]
    have h2 : 2 ^ t + 2 ^ t = 2 ^ (t + 1) := by
      rw [pow_succ, Nat.mul_two]
    rw [h2]

theorem proofStep_components (N g l : Nat) (s : Nat × Nat × Nat) :
    proofStep N g l s =
      (s.1 * 2 % l, s.1 * 2,
        mod_mul (mod_mul s.2.2 s.2.2 N) (mod_pow g (s.1 * 2 / l) N) N) := rfl

theorem proofLoop_inv (N g l : Nat) (hN : 2 ≤ N) (hl : 2 ≤ l) :
    ∀ t, (proofLoop N g l t).1 = 2 ^ t % l ∧
      (proofLoop N g l t).2.2 = g ^ (2 ^ t / l) % N := by
  intro t
  induction t with
  | zero =>
    constructor
    · show 1 = 2 ^ 0 % l
      rw [pow_zero, Nat.mod_eq_of_lt (by omega)]
    · show 1 = g ^ (2 ^ 0 / l) % N
      rw [pow_zero, Nat.div_eq_of_lt (by omega), pow_zero, Nat.mod_eq_of_lt (by omega)]
  | succ t ih =>
    obtain ⟨hr, hpi⟩ := ih
    rw [proofLoop, proofStep_components, hr, hpi]
    constructor
    · show 2 ^ t % l * 2 % l = 2 ^ (t + 1) % l
      rw [mod_mul_mod_left, ← pow_succ]
    · show mod_mul (mod_mul (g ^ (2 ^ t / l) % N) (g ^ (2 ^ t / l) % N) N)
        (mod_pow g (2 ^ t % l * 2 / l) N) N = g ^ (2 ^ (t + 1) / l) % N
      simp only [mod_mul, mod_pow]
      rw [mod_mul_three, ← pow_add, ← pow_add]
      have he : 2 ^ t / l + 2 ^ t / l + 2 ^ t % l * 2 / l = 2 ^ (t + 1) / l := by
        rw [div_double (2 ^ t) l (by omega), ← pow_succ]
      rw [he]

theorem hashToPrimeAux_ip (keccak : List Nat → List Nat) (ip : Nat → Bool)
    (g y : Nat) : ∀ fuel nonce l n0,
    hashToPrimeAux keccak ip g y fuel nonce = some (l, n0) → ip l = true := by
  intro fuel
  induction fuel with
  | zero => intro nonce l n0 h; simp [hashToPrimeAux] at h
  | succ f ih =>
    intro nonce l n0 h
    rw [hashToPrimeAux] at h
    by_cases hc : ip (bytesToNat (keccak (natToBytes g ++ natToBytes y ++ beBytes 4 nonce))) = true
    · simp only [hc, if_true, Option.some.injEq, Prod.mk.injEq] at h
      obtain ⟨h1, _⟩ := h
      rw [← h1]
      exact hc
    · simp only [hc] at h
      exact ih (nonce + 1) l n0 h

theorem hash_to_prime_ip (keccak : List Nat → List Nat) (ip : Nat → Bool)
    (g y l n0 : Nat) (hh : hash_to_prime keccak ip g y = some (l, n0)) :
    ip l = true :=
  hashToPrimeAux_ip keccak ip g y (2 ^ 32) 0 l n0 hh

theorem eval_some_spec (keccak : List Nat → List Nat) (ip : Nat → Bool)
    (u : UnsolvedVDF) (s : SolvedVDF)
    (hs : UnsolvedVDF.eval keccak ip u = some s) :
    ∃ l n0,
      hash_to_prime keccak ip (h_g keccak u.setup.N u.x)
        (sqLoop u.setup.N (h_g keccak u.setup.N u.x) u.setup.t) = some (l, n0) ∧
      s.vdf_instance = u ∧
      s.y = sqLoop u.setup.N (h_g keccak u.setup.N u.x) u.setup.t ∧
      s.pi = (proofLoop u.setup.N (h_g keccak u.setup.N u.x) l u.setup.t).2.2 ∧
      s.nonce = n0 := by
  unfold UnsolvedVDF.eval at hs
  dsimp only at hs
  split at hs
  next hh => exact absurd hs (by simp)
  next l n0 hh =>
    simp only [Option.some.injEq] at hs
    refine ⟨l, n0, hh, ?_, ?_, ?_, ?_⟩ <;> rw [← hs]

theorem verify_eval (keccak : List Nat → List Nat) (ip : Nat → Bool)
    (u : UnsolvedVDF) (s : SolvedVDF)
    (hN : 2 ≤ u.setup.N) (hip : ∀ n, ip n = true → 2 ≤ n)
    (hs : UnsolvedVDF.eval keccak ip u = some s) :
    SolvedVDF.verify keccak ip s u = .ok () := by
  obtain ⟨l, n0, hh, hinst, hy, hpi, _⟩ := eval_some_spec keccak ip u s hs
  have hl : 2 ≤ l := hip l (hash_to_prime_ip keccak ip _ _ l n0 hh)
  have hN0 : 0 < u.setup.N := by omega
  have hg : h_g keccak u.setup.N u.x < u.setup.N := Nat.mod_lt _ hN0
  have hyc : s.y = h_g keccak u.setup.N u.x ^ 2 ^ u.setup.t % u.setup.N := by
    rw [hy, sqLoop_closed _ _ hg]
  have hpic : s.pi = h_g keccak u.setup.N u.x ^ (2 ^ u.setup.t / l) % u.setup.N := by
    rw [hpi, (proofLoop_inv _ _ _ hN hl u.setup.t).2]
  have hylt : s.y < u.setup.N := by rw [hyc]; exact Nat.mod_lt _ hN0
  have hpilt : s.pi < u.setup.N := by rw [hpic]; exact Nat.mod_lt _ hN0
  have hrel : mod_mul (mod_pow s.pi l u.setup.N)
      (mod_pow (h_g keccak u.setup.N u.x) (mod_pow 2 u.setup.t l) u.setup.N)
      u.setup.N = sqLoop u.setup.N (h_g keccak u.setup.N u.x) u.setup.t := by
    rw [sqLoop_closed _ _ hg, hpic]
    simp only [mod_mul, mod_pow]
    rw [← Nat.pow_mod, ← pow_mul]
    have hmm : h_g keccak u.setup.N u.x ^ (2 ^ u.setup.t / l * l) % u.setup.N *
        (h_g keccak u.setup.N u.x ^ (2 ^ u.setup.t % l) % u.setup.N) % u.setup.N =
        h_g keccak u.setup.N u.x ^ (2 ^ u.setup.t / l * l) *
        (h_g keccak u.setup.N u.x ^ (2 ^ u.setup.t % l)) % u.setup.N :=
      (Nat.mod_modEq _ _).mul (Nat.mod_modEq _ _)
    rw [hmm, ← pow_add]
    have hfin : 2 ^ u.setup.t / l * l + 2 ^ u.setup.t % l = 2 ^ u.setup.t := by
      rw [Nat.mul_comm (2 ^ u.setup.t / l) l]
      exact Nat.div_add_mod _ _
    rw [hfin]
  unfold SolvedVDF.verify
  rw [if_neg (show ¬ s.vdf_instance ≠ u from fun h => h hinst)]
  rw [hinst]
  dsimp only
  rw [if_neg (by omega : ¬ (u.setup.N ≤ s.y ∨ u.setup.N ≤ s.pi))]
  rw [hy, hh]
  dsimp only
  rw [← hy, if_pos (by rw [hy]; exact hrel)]

/-- Concrete stand-in for the external Keccak-256 digest, used to instantiate
the parametric theorems at a computable point. -/
def kc : List Nat → List Nat := fun _ => [3]

/-- Concrete stand-in for the external primality oracle, accepting exactly 3. -/
def ip3 : Nat → Bool := fun n => n == 3

theorem ip3_ge_two : ∀ m, ip3 m = true → 2 ≤ m := by
  intro m h
  simp only [ip3] at h
  have hm : m = 3 := by simpa using h
  omega

/-- Claim C2: for every seed `x` and every nonnegative `t`, the `y` field of
the `SolvedVDF` returned by `UnsolvedVDF::eval` is computed by the loop
`y := g` followed by `t` assignments `y := y * y mod N` (the first conjunct,
`sqLoop`), and its value equals `g ^ 2 ^ t mod N` with `g = H_G(N, x)`
(the second conjunct). -/
theorem claim_C2 (keccak : List Nat → List Nat) (ip : Nat → Bool)
    (u : UnsolvedVDF) (s : SolvedVDF) (hN : 0 < u.setup.N)
    (hs : UnsolvedVDF.eval keccak ip u = some s) :
    s.y = sqLoop u.setup.N (h_g keccak u.setup.N u.x) u.setup.t ∧
    s.y = h_g keccak u.setup.N u.x ^ 2 ^ u.setup.t % u.setup.N := by
  obtain ⟨l, n0, hh, hinst, hy, hpi, _⟩ := eval_some_spec keccak ip u s hs
  have hg : h_g keccak u.setup.N u.x < u.setup.N := Nat.mod_lt _ hN
  exact ⟨hy, by rw [hy, sqLoop_closed _ _ hg]⟩

theorem claim_C2_witness :
    (⟨⟨5, ⟨2, 7⟩⟩, 4, 3, 3, 0⟩ : SolvedVDF).y = sqLoop 7 (h_g kc 7 5) 2 ∧
    (⟨⟨5, ⟨2, 7⟩⟩, 4, 3, 3, 0⟩ : SolvedVDF).y = h_g kc 7 5 ^ 2 ^ 2 % 7 :=
  claim_C2 kc ip3 ⟨5, ⟨2, 7⟩⟩ ⟨⟨5, ⟨2, 7⟩⟩, 4, 3, 3, 0⟩ (by decide) (by decide)

/-- Claim C8: in the long-division loop of `UnsolvedVDF::eval`, the remainder
`r` at the start of every iteration (equivalently, after every prefix of `i`
iterations, starting from the initial `r = 1`) is below `l`, and the quotient
`b = r * 2 / l` computed from it is 0 or 1.  The bound `2 ≤ l` comes from the
challenge `l` being accepted by the primality oracle. -/
theorem claim_C8 (keccak : List Nat → List Nat) (ip : Nat → Bool)
    (N g y l n0 : Nat) (hip : ∀ m, ip m = true → 2 ≤ m)
    (hh : hash_to_prime keccak ip g y = some (l, n0)) :
    ∀ i, (proofLoop N g l i).1 < l ∧
      ((proofLoop N g l i).1 * 2 / l = 0 ∨ (proofLoop N g l i).1 * 2 / l = 1) := by
  have hl : 2 ≤ l := hip l (hash_to_prime_ip keccak ip g y l n0 hh)
  intro i
  have hr : (proofLoop N g l i).1 < l := by
    cases i with
    | zero =>
      show (1 : Nat) < l
      omega
    | succ j =>
      rw [proofLoop, proofStep_components]
      exact Nat.mod_lt _ (by omega)
  refine ⟨hr, ?_⟩
  have hb : (proofLoop N g l i).1 * 2 / l < 2 := by
    rw [Nat.div_lt_iff_lt_mul (by omega : 0 < l)]
    omega
  revert hb
  generalize (proofLoop N g l i).1 * 2 / l = b
  omega

theorem claim_C8_witness :
    (proofLoop 7 3 3 1).1 < 3 ∧
      ((proofLoop 7 3 3 1).1 * 2 / 3 = 0 ∨ (proofLoop 7 3 3 1).1 * 2 / 3 = 1) :=
  claim_C8 kc ip3 7 3 4 3 0 ip3_ge_two (by decide) 1

/-- Claim C9: with `t = 0`, `UnsolvedVDF::eval` runs no squaring and no proof
iteration: it returns `y = g = H_G(N, x)` and `pi = 1`, and
`SolvedVDF::verify` accepts the result. -/
theorem claim_C9 (keccak : List Nat → List Nat) (ip : Nat → Bool)
    (u : UnsolvedVDF) (s : SolvedVDF)
    (hN : 2 ≤ u.setup.N) (hip : ∀ n, ip n = true → 2 ≤ n)
    (ht : u.setup.t = 0)
    (hs : UnsolvedVDF.eval keccak ip u = some s) :
    s.y = h_g keccak u.setup.N u.x ∧ s.pi = 1 ∧
    SolvedVDF.verify keccak ip s u = .ok () := by
  obtain ⟨l, n0, hh, hinst, hy, hpi, _⟩ := eval_some_spec keccak ip u s hs
  refine ⟨?_, ?_, verify_eval keccak ip u s hN hip hs⟩
  · rw [hy, ht]
    rfl
  · rw [hpi, ht]
    rfl

theorem claim_C9_witness :
    (⟨⟨5, ⟨0, 7⟩⟩, 3, 1, 0, 0⟩ : SolvedVDF).y = h_g kc 7 5 ∧
    (⟨⟨5, ⟨0, 7⟩⟩, 3, 1, 0, 0⟩ : SolvedVDF).pi = 1 ∧
    SolvedVDF.verify kc ip3 ⟨⟨5, ⟨0, 7⟩⟩, 3, 1, 0, 0⟩ ⟨5, ⟨0, 7⟩⟩ = .ok () :=
  claim_C9 kc ip3 ⟨5, ⟨0, 7⟩⟩ ⟨⟨5, ⟨0, 7⟩⟩, 3, 1, 0, 0⟩ (by decide) ip3_ge_two
    (by decide) (by decide)

theorem verify_matched_not_mismatch (keccak : List Nat → List Nat)
    (ip : Nat → Bool) (s : SolvedVDF) (u : UnsolvedVDF)
    (hm : s.vdf_instance = u) :
    SolvedVDF.verify keccak ip s u ≠ .error .MisMatchedVDF := by
  intro h
  unfold SolvedVDF.verify at h
  rw [if_neg (fun hne => hne hm)] at h
  dsimp only at h
  split at h
  · exact absurd h (by simp)
  · split at h
    · exact absurd h (by simp)
    · split at h
      · exact absurd h (by simp)
      · exact absurd h (by simp)

/-- Claim C3: when the embedded instance matches the claimed challenge and
both `y` and `pi` pass the range check, `SolvedVDF::verify` returns `Ok`
exactly when `pi ^ l * g ^ r mod N == y` with `g = H_G(N, x)`,
`(l, _) = hash_to_prime(g, y)` and `r = 2 ^ t mod l` computed by modular
exponentiation, and returns `VDFVerifyError` otherwise. -/
theorem claim_C3 (keccak : List Nat → List Nat) (ip : Nat → Bool)
    (s : SolvedVDF) (u : UnsolvedVDF) (l n0 : Nat)
    (hm : s.vdf_instance = u)
    (hy : s.y < u.setup.N) (hpi : s.pi < u.setup.N)
    (hh : hash_to_prime keccak ip (h_g keccak u.setup.N u.x) s.y = some (l, n0)) :
    SolvedVDF.verify keccak ip s u =
      if mod_mul (mod_pow s.pi l u.setup.N)
          (mod_pow (h_g keccak u.setup.N u.x) (mod_pow 2 u.setup.t l) u.setup.N)
          u.setup.N = s.y
      then .ok () else .error .VDFVerifyError := by
  unfold SolvedVDF.verify
  rw [if_neg (fun hne => hne hm), hm]
  dsimp only
  rw [if_neg (by omega : ¬ (u.setup.N ≤ s.y ∨ u.setup.N ≤ s.pi))]
  rw [hh]

theorem claim_C3_witness :
    SolvedVDF.verify kc ip3 ⟨⟨5, ⟨2, 7⟩⟩, 4, 3, 3, 0⟩ ⟨5, ⟨2, 7⟩⟩ =
      if mod_mul (mod_pow 3 3 7) (mod_pow (h_g kc 7 5) (mod_pow 2 2 3) 7) 7 = 4
      then .ok () else .error .VDFVerifyError :=
  claim_C3 kc ip3 ⟨⟨5, ⟨2, 7⟩⟩, 4, 3, 3, 0⟩ ⟨5, ⟨2, 7⟩⟩ 3 0 (by decide)
    (by decide) (by decide) (by decide)

/-- Claim C4: with a matching embedded instance, any proof whose `y` or `pi`
is at least `N` (in this embedding all values are non-negative, so the range
condition `0 ≤ y < N`, `0 ≤ pi < N` fails exactly then) is rejected by
`SolvedVDF::verify` with `VDFVerifyError`.  The theorem holds for arbitrary
`keccak` and `ip` and makes no hypothesis on the Wesolowski relation, which
shows the rejection happens before the relation (or even `hash_to_prime`) is
evaluated; the embedding is a total function, so no input — including an
all-ones `y` — can crash it. -/
theorem claim_C4 (keccak : List Nat → List Nat) (ip : Nat → Bool)
    (s : SolvedVDF) (u : UnsolvedVDF)
    (hm : s.vdf_instance = u)
    (hrange : u.setup.N ≤ s.y ∨ u.setup.N ≤ s.pi) :
    SolvedVDF.verify keccak ip s u = .error .VDFVerifyError := by
  unfold SolvedVDF.verify
  rw [if_neg (fun hne => hne hm), hm]
  dsimp only
  rw [if_pos hrange]

set_option maxRecDepth 10000 in
theorem claim_C4_witness :
    SolvedVDF.verify kc ip3
      ⟨⟨5, ⟨2, 7⟩⟩, bytesToNat (List.replicate 256 255), 3, 3, 0⟩ ⟨5, ⟨2, 7⟩⟩ =
      .error .VDFVerifyError :=
  claim_C4 kc ip3 ⟨⟨5, ⟨2, 7⟩⟩, bytesToNat (List.replicate 256 255), 3, 3, 0⟩
    ⟨5, ⟨2, 7⟩⟩ (by decide) (Or.inl (by decide))

/-- Claim C5: `SolvedVDF::verify` returns `MisMatchedVDF` exactly when the
embedded `vdf_instance` differs from the claimed `UnsolvedVDF` in `x`, `t`,
or `N`; the equivalence holds for arbitrary `keccak`, `ip` and proof fields,
matching the source where this comparison is the first step of
verification. -/
theorem claim_C5 (keccak : List Nat → List Nat) (ip : Nat → Bool)
    (s : SolvedVDF) (u : UnsolvedVDF) :
    SolvedVDF.verify keccak ip s u = .error .MisMatchedVDF ↔
      (s.vdf_instance.x ≠ u.x ∨ s.vdf_instance.setup.t ≠ u.setup.t ∨
        s.vdf_instance.setup.N ≠ u.setup.N) := by
  constructor
  · intro h
    by_contra hc
    push_neg at hc
    obtain ⟨hx, ht, hN⟩ := hc
    have hinst : s.vdf_instance = u := by
      show (⟨s.vdf_instance.x, ⟨s.vdf_instance.setup.t, s.vdf_instance.setup.N⟩⟩ :
        UnsolvedVDF) = ⟨u.x, ⟨u.setup.t, u.setup.N⟩⟩
      rw [hx, ht, hN]
    exact verify_matched_not_mismatch keccak ip s u hinst h
  · intro h
    have hne : s.vdf_instance ≠ u := by
      intro he
      rw [he] at h
      simp at h
    unfold SolvedVDF.verify
    rw [if_pos hne]

/-- Claim C10: `SerializedVDFProof::verify_with_parameter` can never return
`MisMatchedVDF`: the `SolvedVDF` it builds is verified against its own
embedded instance, so the structural-equality check always passes. -/
theorem claim_C10 (keccak : List Nat → List Nat) (ip : Nat → Bool)
    (Nmod : Nat) (proof : SerializedVDFProof)
    (parameter : SerializedVDFParameter) :
    SerializedVDFProof.verify_with_parameter keccak ip Nmod proof parameter ≠
      .error .MisMatchedVDF := by
  intro h
  unfold SerializedVDFProof.verify_with_parameter at h
  dsimp only at h
  exact verify_matched_not_mismatch keccak ip _ _ rfl h

theorem claim_C10_witness :
    SerializedVDFProof.verify_with_parameter kc ip3 7 ⟨[1], [2], [3], 0⟩
      ⟨[5], 2⟩ ≠ .error .MisMatchedVDF :=
  claim_C10 kc ip3 7 ⟨[1], [2], [3], 0⟩ ⟨[5], 2⟩

/-- Claim C6: decoding inverts encoding — `from_bytes (to_bytes P) = P` for
every well-formed proof `P` (`y`, `pi`, `q` of 256 bytes and a 32-bit nonce,
as the Rust types `[u8; 256]` and `u32` guarantee) — and `to_bytes` emits
exactly 772 bytes laid out as `y (256) ‖ pi (256) ‖ q (256) ‖ nonce (4,
big-endian)`. -/
theorem claim_C6 (p : SerializedVDFProof) (hy : p.y.length = 256)
    (hpi : p.pi.length = 256) (hq : p.q.length = 256) (hn : p.nonce < 2 ^ 32) :
    SerializedVDFProof.from_bytes (SerializedVDFProof.to_bytes p) = .ok p ∧
    (SerializedVDFProof.to_bytes p).length = 772 := by
  have hlen : (SerializedVDFProof.to_bytes p).length = 772 := by
    simp [SerializedVDFProof.to_bytes, beBytes_length, hy, hpi, hq]
  refine ⟨?_, hlen⟩
  have hassoc : SerializedVDFProof.to_bytes p =
      p.y ++ (p.pi ++ (p.q ++ beBytes 4 p.nonce)) := by
    unfold SerializedVDFProof.to_bytes
    simp [List.append_assoc]
  have hd1 : (SerializedVDFProof.to_bytes p).drop 256 =
      p.pi ++ (p.q ++ beBytes 4 p.nonce) := by
    rw [hassoc, List.drop_left' hy]
  have hd2 : (SerializedVDFProof.to_bytes p).drop 512 =
      p.q ++ beBytes 4 p.nonce := by
    rw [show (512 : Nat) = 256 + 256 from rfl, ← List.drop_drop, hd1,
      List.drop_left' hpi]
  have hd3 : (SerializedVDFProof.to_bytes p).drop 768 = beBytes 4 p.nonce := by
    rw [show (768 : Nat) = 512 + 256 from rfl, ← List.drop_drop, hd2,
      List.drop_left' hq]
  have h1 : (SerializedVDFProof.to_bytes p).take 256 = p.y := by
    rw [hassoc, List.take_left' hy]
  have h2 : ((SerializedVDFProof.to_bytes p).drop 256).take 256 = p.pi := by
    rw [hd1, List.take_left' hpi]
  have h3 : ((SerializedVDFProof.to_bytes p).drop 512).take 256 = p.q := by
    rw [hd2, List.take_left' hq]
  have h4 : bytesToNat (((SerializedVDFProof.to_bytes p).drop 768).take 4) =
      p.nonce := by
    rw [hd3, List.take_of_length_le (by rw [beBytes_length])]
    refine bytesToNat_beBytes 4 p.nonce ?_
    norm_num at hn ⊢
    exact hn
  unfold SerializedVDFProof.from_bytes
  rw [if_pos hlen, h1, h2, h3, h4]

theorem claim_C6_witness :
    SerializedVDFProof.from_bytes (SerializedVDFProof.to_bytes
      ⟨List.replicate 256 0, List.replicate 256 1, List.replicate 256 2, 5⟩) =
      .ok ⟨List.replicate 256 0, List.replicate 256 1, List.replicate 256 2, 5⟩ ∧
    (SerializedVDFProof.to_bytes
      ⟨List.replicate 256 0, List.replicate 256 1, List.replicate 256 2, 5⟩).length = 772 :=
  claim_C6 ⟨List.replicate 256 0, List.replicate 256 1, List.replicate 256 2, 5⟩
    (List.length_replicate _ _) (List.length_replicate _ _)
    (List.length_replicate _ _) (by norm_num)

/-- Claim C7: a seed whose length is not 32 bytes makes
`SerializedVDFProof::compute` signal `InvalidInput`, and a byte slice whose
length is not 772 makes `SerializedVDFProof::from_bytes` signal
`InvalidInput`; in both cases the error is the immediate result surfaced to
the caller (in the Rust source these are the `assert!` guards at the top of
the two functions, whose panics the spec's error taxonomy classifies as
`InvalidInput`). -/
theorem claim_C7 :
    (∀ (keccak : List Nat → List Nat) (ip : Nat → Bool) (Nmod t : Nat)
      (x : List Nat), x.length ≠ 32 →
      SerializedVDFProof.compute keccak ip Nmod t x = .error .InvalidInput) ∧
    (∀ bytes : List Nat, bytes.length ≠ 772 →
      SerializedVDFProof.from_bytes bytes = .error .InvalidInput) := by
  constructor
  · intro keccak ip Nmod t x hx
    unfold SerializedVDFProof.compute
    rw [if_neg hx]
  · intro bytes hb
    unfold SerializedVDFProof.from_bytes
    rw [if_neg hb]

theorem claim_C7_witness :
    SerializedVDFProof.compute kc ip3 7 2 [] = .error .InvalidInput ∧
    SerializedVDFProof.from_bytes [] = .error .InvalidInput :=
  ⟨claim_C7.1 kc ip3 7 2 [] (by decide), claim_C7.2 [] (by decide)⟩

/-- Claim C1: for a 32-byte seed and `t` up to `2 ^ 16` (within `u64` range)
over the fixed 2048-bit trusted modulus, any proof returned by
`SerializedVDFProof::compute(t, x)` is accepted when verified against the
same parameter, as `verify_with_parameter` does.  (`compute` self-verifies
before serializing; the theorem shows the serialization and parameter
round-trip preserves that verdict.) -/
theorem claim_C1 (keccak : List Nat → List Nat) (ip : Nat → Bool)
    (Nmod t : Nat) (x : List Nat) (proof : SerializedVDFProof)
    (_hN : 2 ≤ Nmod) (_hNbits : Nmod < 2 ^ 2048)
    (hx : x.length = 32) (ht : t ≤ 2 ^ 16)
    (hc : SerializedVDFProof.compute keccak ip Nmod t x = .ok proof) :
    SerializedVDFProof.verify_with_parameter keccak ip Nmod proof
      ⟨x, t⟩ = .ok () := by
  have ht64 : bytesToNat (beBytes 8 t) = t := by
    refine bytesToNat_beBytes 8 t ?_
    have h16 : (2 : Nat) ^ 16 < 256 ^ 8 := by norm_num
    omega
  unfold SerializedVDFProof.compute at hc
  rw [if_pos hx] at hc
  dsimp only [SetupForVDF.public_setup] at hc
  split at hc
  · exact absurd hc (by simp)
  next s hev =>
    split at hc
    next e hverr => exact absurd hc (by simp)
    next val hvok =>
      simp only [Except.ok.injEq] at hc
      obtain ⟨l, n0, hh, hinst, hy, hpi, hnonce⟩ :=
        eval_some_spec keccak ip _ s hev
      rw [ht64] at hinst
      subst hc
      unfold SerializedVDFProof.verify_with_parameter
      dsimp only
      have hS : SolvedVDF.from_parameter_and_proof Nmod ⟨x, t⟩
          ⟨padLeft 256 (natToBytes s.y), padLeft 256 (natToBytes s.pi),
            padLeft 256 (natToBytes s.q), s.nonce⟩ = s := by
        unfold SolvedVDF.from_parameter_and_proof UnsolvedVDF.from_parameter
          SetupForVDF.public_setup
        dsimp only
        rw [bytesToNat_padLeft_natToBytes, bytesToNat_padLeft_natToBytes,
          bytesToNat_padLeft_natToBytes, ← hinst]
      rw [hS, hinst, ht64] at *
      cases val
      exact hvok

set_option maxRecDepth 10000 in
theorem claim_C1_witness :
    SerializedVDFProof.verify_with_parameter kc ip3 7
      ⟨padLeft 256 (natToBytes 4), padLeft 256 (natToBytes 3),
        padLeft 256 (natToBytes 3), 0⟩ ⟨List.replicate 32 0, 2⟩ = .ok () :=
  claim_C1 kc ip3 7 2 (List.replicate 32 0)
    ⟨padLeft 256 (natToBytes 4), padLeft 256 (natToBytes 3),
      padLeft 256 (natToBytes 3), 0⟩
    (by decide) (by decide) (by decide) (by decide) (by decide)
